import Mathlib

/-
Verification of the TSDF volume facade in
`src/prototype/src/main/jni/chisel_mesh.cc` (namespace
`tango_augmented_reality`, class `ChiselMesh`).

Shallow embedding conventions:
* 32-bit floats become exact rationals (ℚ); decimal literals of the C++
  source are mapped to their decimal value (e.g. 0.06 ↦ 6/100).  No claim
  at issue depends on binary rounding of these constants.
* `std::vector` push_back loops become `List.foldl` with singleton
  appends; GLushort stores are taken modulo 2 ^ 16.
* The open_chisel library (Chisel, ChunkManager, ProjectionIntegrator,
  DistVoxel, mesh extraction) is not part of the repository sources; the
  definitions below that stand in for it carry a doc comment beginning
  "Modelled from the spec:" and follow the specification text.
-/

namespace TangoAR

/-- A 3-D point / vector with exact rational coordinates (embeds
`chisel::Vec3` / `Eigen::Vector3f`). -/
structure Vec3 where
  x : ℚ
  y : ℚ
  z : ℚ
deriving DecidableEq

/-- Modelled from the spec: a voxel of the distance field carries a signed
distance value and an accumulated confidence weight (`chisel::DistVoxel`,
absent from src/). -/
structure Voxel where
  sdf : ℚ
  weight : ℚ
deriving DecidableEq

/-- Modelled from the spec: the running weighted-average merge of a new
(distance, weight) sample into a voxel —
`newDistance = (oldDistance*oldWeight + sampleDistance*sampleWeight) /
(oldWeight + sampleWeight)`, `newWeight = oldWeight + sampleWeight`
(spec section 4.3 step 5; the voxel-update code is absent from src/). -/
def mergeVoxel (v : Voxel) (sampleDistance sampleWeight : ℚ) : Voxel :=
  { sdf := (v.sdf * v.weight + sampleDistance * sampleWeight) / (v.weight + sampleWeight),
    weight := v.weight + sampleWeight }

/-- Modelled from the spec: the constant Weighter
(`chisel::ConstantWeighter(weighting)`, absent from src/) returns the
construction-time weight regardless of range. -/
def constantWeighter (weighting : ℚ) (_range : ℚ) : ℚ := weighting

/-- Merging the same sample N times in sequence (the repeated-integration
scenario of spec section 8). -/
def integrateN (sampleDistance : ℚ) : ℕ → Voxel → Voxel
  | 0, v => v
  | n + 1, v => mergeVoxel (integrateN sampleDistance n v) sampleDistance 1

/-- Modelled from the spec: a per-chunk triangle mesh — a vertex list and
an index list (`chisel::Mesh`, absent from src/). -/
structure Mesh where
  vertices : List Vec3
  indices : List ℕ
deriving DecidableEq

/-- Modelled from the spec: a chunk owns its voxels (kept sparsely as an
association list, absent entries standing for unobserved voxels of weight
0), a needs-remesh dirty flag, and its current mesh. -/
structure Chunk where
  voxels : List ((ℤ × ℤ × ℤ) × Voxel)
  dirty : Bool
  mesh : Mesh
deriving DecidableEq

/-- A chunk with no observations, as lazily created on first write. -/
def emptyChunk : Chunk := { voxels := [], dirty := false, mesh := ⟨[], []⟩ }

/-- Modelled from the spec: the Chunk Manager, an owning mapping from
chunk id (3-tuple of integers) to chunk, kept as an association list in
insertion order. -/
abbrev ChunkStore : Type := List ((ℤ × ℤ × ℤ) × Chunk)

/-- Update the value at a key in an association list, inserting
`f d` at the back when the key is absent (lazy chunk / voxel creation). -/
def updateAssocD {α β : Type} [DecidableEq α] (l : List (α × β)) (k : α) (d : β)
    (f : β → β) : List (α × β) :=
  match l with
  | [] => [(k, f d)]
  | (a, b) :: rest =>
      if a = k then (a, f b) :: rest else (a, b) :: updateAssocD rest k d f

/-- A 4×4 matrix of rationals; the first index is the first subscript of
the C++ source (`transformation[j][k]`, `extrinsic(j, k)`). -/
abbrev Mat4 := Fin 4 → Fin 4 → ℚ

/-- The entrywise copy `extrinsic(j, k) = transformation[j][k]` of
`ChiselMesh::addPoints` (source lines 58-63). -/
def extrinsicOf (transformation : Mat4) : Mat4 :=
  fun j k => transformation j k

/-- The identity transform, used as a concrete pose. -/
def idMat : Mat4 := fun j k => if j = k then 1 else 0

/-- Modelled from the spec: applying the homogeneous sensor-to-world
transform to a sensor-local point (spec section 4.3 step 1; the spec fixes
only that the pose is a 4×4 homogeneous transform, so the usual
translation-in-last-column convention is adopted). -/
def worldOf (T : Mat4) (p : Vec3) : Vec3 :=
  ⟨T 0 0 * p.x + T 0 1 * p.y + T 0 2 * p.z + T 0 3,
   T 1 0 * p.x + T 1 1 * p.y + T 1 2 * p.z + T 1 3,
   T 2 0 * p.x + T 2 1 * p.y + T 2 2 * p.z + T 2 3⟩

/-- Modelled from the spec: the sensor origin is the pose translation
(spec section 4.3 step 2). -/
def translationOf (T : Mat4) : Vec3 := ⟨T 0 3, T 1 3, T 2 3⟩

/-- Squared Euclidean distance.  The range test `range > farClipDistance`
of the spec is carried out on squares, which is equivalent for
non-negative quantities and keeps the model inside exact rational
arithmetic. -/
def distSq (a b : Vec3) : ℚ :=
  (a.x - b.x) * (a.x - b.x) + (a.y - b.y) * (a.y - b.y) + (a.z - b.z) * (a.z - b.z)

/-- Chebyshev distance, used to count voxel-resolution steps along a ray
without leaving rational arithmetic. -/
def linfDist (a b : Vec3) : ℚ :=
  max |a.x - b.x| (max |a.y - b.y| |a.z - b.z|)

/-- The voxel containing a world-space point at the given resolution. -/
def voxelOf (p : Vec3) (resolution : ℚ) : ℤ × ℤ × ℤ :=
  (⌊p.x / resolution⌋, ⌊p.y / resolution⌋, ⌊p.z / resolution⌋)

/-- Number of voxel-resolution steps from the sensor origin to the
surface point. -/
def raySampleCount (o w : Vec3) (resolution : ℚ) : ℕ :=
  Int.toNat ⌈linfDist o w / resolution⌉

/-- The point at ray parameter j/m on the segment from `o` to `w`. -/
def samplePoint (o w : Vec3) (m j : ℕ) : Vec3 :=
  ⟨o.x + ((j : ℚ) / (m : ℚ)) * (w.x - o.x),
   o.y + ((j : ℚ) / (m : ℚ)) * (w.y - o.y),
   o.z + ((j : ℚ) / (m : ℚ)) * (w.z - o.z)⟩

/-- Modelled from the spec: the per-point ray walk of the Projection
Integrator (spec section 4.3 steps 1-4; the integrator code is absent from
src/).  The point is transformed into world space; a zero-length ray is
skipped (section 4.3 edge cases), as is a point whose range exceeds
`farClipDistance` (step 2); otherwise the segment from the sensor origin
to the surface point is walked in voxel-resolution steps.  Each retained
sample carries its voxel id, the square of its signed distance, and a
range-scaled signed-distance surrogate `(j/m - 1) * range^2` (the exact
signed distance `(j/m - 1) * range` is irrational in general; no claim at
issue depends on the stored magnitude, and the merge law itself is proved
on `mergeVoxel`).  The truncation-extension of the walk past the surface
(which would require normalising the ray direction) is omitted: the
claims at issue depend only on whether the touched set is empty. -/
def touchedData (T : Mat4) (farClipDistance resolution : ℚ) (p : Vec3) :
    List ((ℤ × ℤ × ℤ) × ℚ × ℚ) :=
  let w := worldOf T p
  let o := translationOf T
  let rSq := distSq o w
  if rSq = 0 then []
  else if farClipDistance * farClipDistance < rSq then []
  else
    let m := raySampleCount o w resolution
    (List.range (m + 1)).map (fun j =>
      (voxelOf (samplePoint o w m j) resolution,
       ((1 - (j : ℚ) / (m : ℚ)) * (1 - (j : ℚ) / (m : ℚ)) * rSq,
        ((j : ℚ) / (m : ℚ) - 1) * rSq)))

/-- The voxels a single integrated point touches. -/
def touchedVoxels (T : Mat4) (farClipDistance resolution : ℚ) (p : Vec3) :
    List (ℤ × ℤ × ℤ) :=
  (touchedData T farClipDistance resolution p).map (fun q => q.1)

/-- Modelled from the spec: the construction-time state of the Projection
Integrator (`chisel::ProjectionIntegrator(truncator, weighter,
carvingDistance, enableCarving, centroids)`, source lines 35-40). -/
structure Integrator where
  truncationDistScale : ℚ
  weighting : ℚ
  carvingDistance : ℚ
  enableCarving : Bool
deriving DecidableEq

/-- The chunk id owning a voxel (floor division by the chunk size). -/
def chunkIdOf (chunkSize : ℕ) (vid : ℤ × ℤ × ℤ) : ℤ × ℤ × ℤ :=
  (Int.fdiv vid.1 chunkSize, Int.fdiv vid.2.1 chunkSize, Int.fdiv vid.2.2 chunkSize)

/-- The local offset of a voxel within its chunk. -/
def localOf (chunkSize : ℕ) (vid : ℤ × ℤ × ℤ) : ℤ × ℤ × ℤ :=
  (Int.emod vid.1 chunkSize, Int.emod vid.2.1 chunkSize, Int.emod vid.2.2 chunkSize)

/-- Modelled from the spec: updating one voxel inside a chunk store —
the owning chunk is lazily created on first write (spec section 4.1), the
voxel value is rewritten by `f`, and the chunk is marked dirty (spec
section 4.3 step 6). -/
def touchVoxel (chunkSize : ℕ) (st : ChunkStore) (vid : ℤ × ℤ × ℤ)
    (f : Voxel → Voxel) : ChunkStore :=
  updateAssocD st (chunkIdOf chunkSize vid) emptyChunk (fun c =>
    { voxels := updateAssocD c.voxels (localOf chunkSize vid) ⟨0, 0⟩ f,
      dirty := true,
      mesh := c.mesh })

/-- Modelled from the spec: the per-sample voxel update (spec section 4.3
steps 4-5).  Within the truncation band the sample is merged by running
weighted average with the Weighter's weight; outside the band, when
carving is enabled and the voxel lies strictly between the sensor and the
surface by more than `carvingDistance`, the voxel's confidence is cleared
(free-space carving, overriding rather than blending); otherwise the
voxel is left untouched.  `q` is `(voxel id, sdSq, sd-surrogate)` from
`touchedData`; band and carving tests compare squares, which is
equivalent for the non-negative thresholds. -/
def voxelUpdate (ig : Integrator) (chunkSize : ℕ) (st : ChunkStore)
    (q : (ℤ × ℤ × ℤ) × ℚ × ℚ) : ChunkStore :=
  if q.2.1 ≤ ig.truncationDistScale * ig.truncationDistScale then
    touchVoxel chunkSize st q.1
      (fun v => mergeVoxel v q.2.2 (constantWeighter ig.weighting q.2.1))
  else if ig.enableCarving = true ∧ q.2.2 < 0 ∧ ig.carvingDistance * ig.carvingDistance < q.2.1 then
    touchVoxel chunkSize st q.1 (fun v => { sdf := v.sdf, weight := 0 })
  else st

/-- Modelled from the spec: integrating one point of the cloud — fold the
voxel updates of its ray walk over the store. -/
def integrateOnePoint (ig : Integrator) (extrinsic : Mat4)
    (farClipDistance resolution : ℚ) (chunkSize : ℕ)
    (st : ChunkStore) (p : Vec3) : ChunkStore :=
  (touchedData extrinsic farClipDistance resolution p).foldl
    (voxelUpdate ig chunkSize) st

/-- Modelled from the spec:
`Chisel::IntegratePointCloud(projectionIntegrator, cloud, extrinsic,
rayTruncation, farClipping)` (source lines 65-71; the chisel code is
absent from src/) — integrate every point of the cloud in order.
`rayTruncationDistance` bounds the walk past the surface, which the model
omits (see `touchedData`); it is kept in the signature to record the
delegation of the configured parameter. -/
def integratePointCloud (ig : Integrator) (cloud : List Vec3) (extrinsic : Mat4)
    (_rayTruncationDistance farClipDistance : ℚ) (chunkSize : ℕ)
    (resolution : ℚ) (st : ChunkStore) : ChunkStore :=
  cloud.foldl
    (integrateOnePoint ig extrinsic farClipDistance resolution chunkSize) st

/-- The configuration member variables of `ChiselMesh`, assigned once in
the constructor (source lines 25-32) and read by `addPoints`. -/
structure ChiselConfig where
  chunkSize : ℕ
  truncationDistScale : ℚ
  weighting : ℚ
  enableCarving : Bool
  carvingDistance : ℚ
  chunkResolution : ℚ
  farClipping : ℚ
  rayTruncation : ℚ
deriving DecidableEq

/-- The Projection Integrator as constructed from the configuration
(source lines 36-40: constant truncator from `truncationDistScale`,
constant weighter from `weighting`, `carvingDistance`, `enableCarving`). -/
def integratorOf (c : ChiselConfig) : Integrator :=
  { truncationDistScale := c.truncationDistScale,
    weighting := c.weighting,
    carvingDistance := c.carvingDistance,
    enableCarving := c.enableCarving }

/-- The state of a `ChiselMesh` object: the configuration members, the
point-cloud buffer `lastPointCloud`, the chisel volume's chunk store, and
the GL vertex / index buffers filled by `SetVertices`. -/
structure ChiselMesh where
  config : ChiselConfig
  lastPointCloud : List Vec3
  chunks : ChunkStore
  glVertices : List ℚ
  glIndices : List ℕ

/-- The state after `ChiselMesh::ChiselMesh()` (source lines 21-45):
the configuration constants are fixed, the volume is empty (chunks are
created lazily), and the point-cloud and GL buffers are empty.  The
decimal literals of the source are mapped to their exact decimal
values. -/
def initChiselMesh : ChiselMesh :=
  { config :=
      { chunkSize := 16,
        truncationDistScale := 8,
        weighting := 1,
        enableCarving := true,
        carvingDistance := 5 / 10,
        chunkResolution := 6 / 100,
        farClipping := 2,
        rayTruncation := 5 / 10 },
    lastPointCloud := [],
    chunks := [],
    glVertices := [],
    glIndices := [] }

/-- `int vertexCount = vertices.size() / 3;` (source line 51) — C++
integer division on a non-negative size is truncating division. -/
def vertexCountField (vertices : List ℚ) : ℕ :=
  vertices.length / 3

/-- The value handed to the diagnostic log by
`LOGE("got %d points from as pointcloud data", vertexCount / 3);`
(source line 52). -/
def loggedPointCount (vertices : List ℚ) : ℕ :=
  vertexCountField vertices / 3

/-- The point-cloud buffer after `lastPointCloud->Clear()` followed by
the fill loop of `addPoints` (source lines 49-57): starting from the
cleared buffer, for `i` from 0 below `vertexCount` push the point
`(vertices[i*3], vertices[i*3+1], vertices[i*3+2])`.  The subscripts are
embedded with `getD`; for `i < vertexCount` they are in range, so the
default is never consulted. -/
def fillPointCloud (vertices : List ℚ) : List Vec3 :=
  (List.range (vertexCountField vertices)).foldl
    (fun cloud i =>
      cloud ++ [⟨vertices.getD (i * 3) 0,
                 vertices.getD (i * 3 + 1) 0,
                 vertices.getD (i * 3 + 2) 0⟩])
    []

/-- `ChiselMesh::addPoints` (source lines 47-73): clear and refill the
point-cloud buffer, copy the transformation into the extrinsic matrix,
and delegate to `IntegratePointCloud` with the configured
`rayTruncation` and `farClipping` (the integrator itself carrying the
configured truncator, weighter and carving parameters). -/
def addPoints (s : ChiselMesh) (vertices : List ℚ) (transformation : Mat4) :
    ChiselMesh :=
  { s with
    lastPointCloud := fillPointCloud vertices,
    chunks :=
      integratePointCloud (integratorOf s.config) (fillPointCloud vertices)
        (extrinsicOf transformation) s.config.rayTruncation s.config.farClipping
        s.config.chunkSize s.config.chunkResolution s.chunks }

/-- Modelled from the spec: `Chisel::UpdateMeshes()` (absent from src/)
re-extracts the mesh of every dirty chunk from that chunk's current
voxel contents and resets the dirty flag (spec sections 3 and 4.4); clean
chunks are untouched.  The extraction algorithm itself (marching cubes)
is abstracted as the function argument `extract`. -/
def updateMeshes (extract : List ((ℤ × ℤ × ℤ) × Voxel) → Mesh)
    (cs : ChunkStore) : ChunkStore :=
  List.map (fun p =>
    if p.2.dirty then
      (p.1, { voxels := p.2.voxels, dirty := false, mesh := extract p.2.voxels })
    else p) cs

/-- Modelled from the spec: `GetChunkManager().GetAllMeshes()` — the mesh
map, chunk id to mesh, in the store's order (the C++ unordered_map has a
fixed iteration order for a map that is not restructured between the two
traversals at issue). -/
def chunkMeshes (cs : ChunkStore) : List ((ℤ × ℤ × ℤ) × Mesh) :=
  List.map (fun p => (p.1, p.2.mesh)) cs

/-- The flattening loops of `ChiselMesh::updateVertices` (source lines
81-91): for each chunk mesh, for each entry `index` of its index list,
push `vertices[index](0..2)` onto the GL vertex buffer and
`index*3, index*3+1, index*3+2` onto the GL index buffer.  The index
buffer is `std::vector<GLushort>`, so each pushed value is reduced
modulo 2 ^ 16; `vertices[index]` is embedded with `getD` (for the valid
meshes extraction produces the subscript is in range). -/
def flattenMeshMap (mm : List ((ℤ × ℤ × ℤ) × Mesh)) : List ℚ × List ℕ :=
  mm.foldl (fun acc p =>
    p.2.indices.foldl (fun acc2 index =>
      (acc2.1 ++ [(p.2.vertices.getD index ⟨0, 0, 0⟩).x,
                  (p.2.vertices.getD index ⟨0, 0, 0⟩).y,
                  (p.2.vertices.getD index ⟨0, 0, 0⟩).z],
       acc2.2 ++ [index * 3 % 65536, (index * 3 + 1) % 65536,
                  (index * 3 + 2) % 65536]))
      acc)
    ([], [])

/-- `ChiselMesh::updateVertices` (source lines 75-95): run
`UpdateMeshes`, read back the mesh map, flatten it, and store the result
via `SetVertices`. -/
def updateVertices (extract : List ((ℤ × ℤ × ℤ) × Voxel) → Mesh)
    (s : ChiselMesh) : ChiselMesh :=
  { s with
    chunks := updateMeshes extract s.chunks,
    glVertices := (flattenMeshMap (chunkMeshes (updateMeshes extract s.chunks))).1,
    glIndices := (flattenMeshMap (chunkMeshes (updateMeshes extract s.chunks))).2 }

/-- A push_back loop is an append of the mapped list. -/
lemma foldl_append_eq_map {α β : Type} (f : α → β) (l : List α) (acc : List β) :
    l.foldl (fun a i => a ++ [f i]) acc = acc ++ l.map f := by
  induction l generalizing acc with
  | nil => simp
  | cons x xs ih => simp [ih]

/-- The filled point-cloud buffer in closed form. -/
lemma fillPointCloud_eq (vertices : List ℚ) :
    fillPointCloud vertices =
      (List.range (vertices.length / 3)).map (fun i =>
        ⟨vertices.getD (i * 3) 0, vertices.getD (i * 3 + 1) 0,
         vertices.getD (i * 3 + 2) 0⟩) := by
  unfold fillPointCloud vertexCountField
  rw [foldl_append_eq_map]
  simp

/-- A pair of push_back loops over the same list is a pair of binds. -/
lemma foldl_pair_append_eq_bind {α β γ : Type} (A : α → List β) (B : α → List γ)
    (l : List α) (acc : List β × List γ) :
    l.foldl (fun ac i => (ac.1 ++ A i, ac.2 ++ B i)) acc =
      (acc.1 ++ l.flatMap A, acc.2 ++ l.flatMap B) := by
  induction l generalizing acc with
  | nil => simp
  | cons x xs ih => simp [ih, List.flatMap_cons]

/-- The flattened mesh-map buffers in closed form: a bind over chunk
meshes of a bind over indices. -/
lemma flattenMeshMap_eq (mm : List ((ℤ × ℤ × ℤ) × Mesh)) :
    flattenMeshMap mm =
      (mm.flatMap (fun p => p.2.indices.flatMap (fun index =>
          [(p.2.vertices.getD index ⟨0, 0, 0⟩).x,
           (p.2.vertices.getD index ⟨0, 0, 0⟩).y,
           (p.2.vertices.getD index ⟨0, 0, 0⟩).z])),
       mm.flatMap (fun p => p.2.indices.flatMap (fun index =>
          [index * 3 % 65536, (index * 3 + 1) % 65536, (index * 3 + 2) % 65536]))) := by
  unfold flattenMeshMap
  have hstep :
      (fun (acc : List ℚ × List ℕ) (p : (ℤ × ℤ × ℤ) × Mesh) =>
        p.2.indices.foldl (fun acc2 index =>
          (acc2.1 ++ [(p.2.vertices.getD index ⟨0, 0, 0⟩).x,
                      (p.2.vertices.getD index ⟨0, 0, 0⟩).y,
                      (p.2.vertices.getD index ⟨0, 0, 0⟩).z],
           acc2.2 ++ [index * 3 % 65536, (index * 3 + 1) % 65536,
                      (index * 3 + 2) % 65536])) acc) =
      (fun (acc : List ℚ × List ℕ) (p : (ℤ × ℤ × ℤ) × Mesh) =>
        (acc.1 ++ p.2.indices.flatMap (fun index =>
            [(p.2.vertices.getD index ⟨0, 0, 0⟩).x,
             (p.2.vertices.getD index ⟨0, 0, 0⟩).y,
             (p.2.vertices.getD index ⟨0, 0, 0⟩).z]),
         acc.2 ++ p.2.indices.flatMap (fun index =>
            [index * 3 % 65536, (index * 3 + 1) % 65536,
             (index * 3 + 2) % 65536]))) := by
    funext acc p
    exact foldl_pair_append_eq_bind _ _ _ _
  rw [hstep, foldl_pair_append_eq_bind]
  simp

/-- Length of a bind that emits three entries per element. -/
lemma length_bind_triple {α β : Type} (l : List α) (f g h : α → β) :
    (l.flatMap (fun i => [f i, g i, h i])).length = 3 * l.length := by
  induction l with
  | nil => simp
  | cons x xs ih => simp [List.flatMap_cons, ih]; ring

/-- C1: for every input float vector of length n and every pose,
`addPoints` first clears the internal point-cloud buffer and then adds
exactly n / 3 points in order, point i being the triple
(input[3i], input[3i+1], input[3i+2]) — the subscripts all in range —
before delegating to the integrator with the configured parameters. -/
theorem addPoints_fills_cloud_and_delegates (s : ChiselMesh) (v : List ℚ)
    (T : Mat4) :
    (addPoints s v T).lastPointCloud =
      (List.range (v.length / 3)).map (fun i =>
        ⟨v.getD (i * 3) 0, v.getD (i * 3 + 1) 0, v.getD (i * 3 + 2) 0⟩)
  ∧ (addPoints s v T).lastPointCloud.length = v.length / 3
  ∧ (∀ i, i < v.length / 3 → i * 3 + 2 < v.length)
  ∧ (addPoints s v T).chunks =
      integratePointCloud (integratorOf s.config)
        ((addPoints s v T).lastPointCloud) (extrinsicOf T)
        s.config.rayTruncation s.config.farClipping
        s.config.chunkSize s.config.chunkResolution s.chunks := by
  refine ⟨fillPointCloud_eq v, ?_, ?_, rfl⟩
  · show (fillPointCloud v).length = v.length / 3
    rw [fillPointCloud_eq]
    simp
  · intro i hi
    omega

/-- Witness for C1 at a concrete six-float input. -/
theorem addPoints_fills_cloud_and_delegates_witness :
    (addPoints initChiselMesh [1, 2, 3, 4, 5, 6] idMat).lastPointCloud =
      [⟨1, 2, 3⟩, ⟨4, 5, 6⟩]
  ∧ 0 * 3 + 2 < ([1, 2, 3, 4, 5, 6] : List ℚ).length := by
  have h := addPoints_fills_cloud_and_delegates initChiselMesh
    [1, 2, 3, 4, 5, 6] idMat
  refine ⟨?_, h.2.2.1 0 (by decide)⟩
  rw [h.1]
  decide

/-- C7: the configuration constants are fixed at construction to the
source's values, and neither `addPoints` nor `updateVertices` changes
any of them. -/
theorem config_constants_frozen :
    initChiselMesh.config =
      { chunkSize := 16, truncationDistScale := 8, weighting := 1,
        enableCarving := true, carvingDistance := 5 / 10,
        chunkResolution := 6 / 100, farClipping := 2, rayTruncation := 5 / 10 }
  ∧ (∀ (s : ChiselMesh) (v : List ℚ) (T : Mat4), (addPoints s v T).config = s.config)
  ∧ (∀ (extract : List ((ℤ × ℤ × ℤ) × Voxel) → Mesh) (s : ChiselMesh),
      (updateVertices extract s).config = s.config) :=
  ⟨rfl, fun _ _ _ => rfl, fun _ _ => rfl⟩

/-- C8: the field named `vertexCount` is computed as `vertices.size() / 3`
(which is the actual point count), and the diagnostic logs
`vertexCount / 3`, i.e. (n / 3) / 3 — which is not the point count (they
differ already at n = 9). -/
theorem vertexCount_logging :
    (∀ v : List ℚ, vertexCountField v = v.length / 3
       ∧ loggedPointCount v = v.length / 3 / 3
       ∧ (fillPointCloud v).length = v.length / 3)
  ∧ loggedPointCount (List.replicate 9 (0 : ℚ)) ≠
      (fillPointCloud (List.replicate 9 (0 : ℚ))).length := by
  constructor
  · intro v
    refine ⟨rfl, rfl, ?_⟩
    rw [fillPointCloud_eq]
    simp
  · decide

/-- C9: `addPoints` is deterministic and side-effect-complete — two runs
from equal states with equal inputs and poses yield equal states, all of
the call's effect being the returned state of the pure embedding. -/
theorem addPoints_deterministic (s₁ s₂ : ChiselMesh) (v₁ v₂ : List ℚ)
    (T₁ T₂ : Mat4) (hs : s₁ = s₂) (hv : v₁ = v₂) (hT : T₁ = T₂) :
    addPoints s₁ v₁ T₁ = addPoints s₂ v₂ T₂ := by
  subst hs
  subst hv
  subst hT
  rfl

/-- Witness for C9 at a concrete state, input and pose. -/
theorem addPoints_deterministic_witness :
    addPoints initChiselMesh [1, 0, 0] idMat =
      addPoints initChiselMesh [1, 0, 0] idMat :=
  addPoints_deterministic initChiselMesh initChiselMesh [1, 0, 0] [1, 0, 0]
    idMat idMat rfl rfl rfl

/-- Length of a bind whose per-element output has length three times a
given count. -/
lemma length_flatMap_of_triple {α β : Type} (l : List α) (h : α → List β)
    (k : α → ℕ) (hh : ∀ a, (h a).length = 3 * k a) :
    (l.flatMap h).length = 3 * (l.map k).sum := by
  induction l with
  | nil => simp
  | cons x xs ih =>
      simp [List.flatMap_cons, hh, ih]
      ring

/-- C2 (amended): `updateVertices` builds the buffers by iterating each
chunk mesh's index list, appending the indexed vertex's coordinates to
the vertex buffer and the entries 3i, 3i+1, 3i+2 — each reduced modulo
2 ^ 16 by the GLushort store — to the index buffer; the index buffer
length is a multiple of 3 and equals the vertex buffer length. -/
theorem updateVertices_buffers (extract : List ((ℤ × ℤ × ℤ) × Voxel) → Mesh)
    (s : ChiselMesh) :
    (updateVertices extract s).glVertices =
      (chunkMeshes (updateMeshes extract s.chunks)).flatMap (fun p =>
        p.2.indices.flatMap (fun index =>
          [(p.2.vertices.getD index ⟨0, 0, 0⟩).x,
           (p.2.vertices.getD index ⟨0, 0, 0⟩).y,
           (p.2.vertices.getD index ⟨0, 0, 0⟩).z]))
  ∧ (updateVertices extract s).glIndices =
      (chunkMeshes (updateMeshes extract s.chunks)).flatMap (fun p =>
        p.2.indices.flatMap (fun index =>
          [index * 3 % 65536, (index * 3 + 1) % 65536, (index * 3 + 2) % 65536]))
  ∧ (updateVertices extract s).glIndices.length =
      (updateVertices extract s).glVertices.length
  ∧ 3 ∣ (updateVertices extract s).glIndices.length := by
  have hm := flattenMeshMap_eq (chunkMeshes (updateMeshes extract s.chunks))
  have h1 : (updateVertices extract s).glVertices =
      (flattenMeshMap (chunkMeshes (updateMeshes extract s.chunks))).1 := rfl
  have h2 : (updateVertices extract s).glIndices =
      (flattenMeshMap (chunkMeshes (updateMeshes extract s.chunks))).2 := rfl
  have hv := length_flatMap_of_triple (chunkMeshes (updateMeshes extract s.chunks))
    (fun p => p.2.indices.flatMap (fun index =>
      [(p.2.vertices.getD index ⟨0, 0, 0⟩).x,
       (p.2.vertices.getD index ⟨0, 0, 0⟩).y,
       (p.2.vertices.getD index ⟨0, 0, 0⟩).z]))
    (fun p => p.2.indices.length) (fun p => length_bind_triple _ _ _ _)
  have hi := length_flatMap_of_triple (chunkMeshes (updateMeshes extract s.chunks))
    (fun p => p.2.indices.flatMap (fun index =>
      [index * 3 % 65536, (index * 3 + 1) % 65536, (index * 3 + 2) % 65536]))
    (fun p => p.2.indices.length) (fun p => length_bind_triple _ _ _ _)
  refine ⟨by rw [h1, hm], by rw [h2, hm], ?_, ?_⟩
  · rw [h1, h2, hm]
    show (List.flatMap _ _).length = (List.flatMap _ _).length
    rw [hv, hi]
  · rw [h2, hm]
    show 3 ∣ (List.flatMap _ _).length
    rw [hi]
    exact ⟨_, rfl⟩

/-- A chunk mesh whose single index entry is large enough that its
GLushort expansion wraps. -/
def wrapMesh : Mesh := ⟨List.replicate 21846 ⟨0, 0, 0⟩, [21845]⟩

/-- An extractor producing `wrapMesh` for any chunk contents. -/
def wrapExtract : List ((ℤ × ℤ × ℤ) × Voxel) → Mesh := fun _ => wrapMesh

/-- A state holding a single dirty chunk awaiting extraction. -/
def oneDirtyChunkState : ChiselMesh :=
  { initChiselMesh with
    chunks := [((0, 0, 0), { voxels := [], dirty := true, mesh := ⟨[], []⟩ })] }

/-- Counterexample to C2 as stated: for a chunk mesh containing the index
21845, the emitted index-buffer entries are not the literal values
3i, 3i+1, 3i+2 (the store wraps them to 65535, 0, 1). -/
theorem updateVertices_index_literal_cex :
    (updateVertices wrapExtract oneDirtyChunkState).glIndices ≠
      [21845 * 3, 21845 * 3 + 1, 21845 * 3 + 2] := by
  have h2 : (updateVertices wrapExtract oneDirtyChunkState).glIndices =
      (flattenMeshMap (chunkMeshes
        (updateMeshes wrapExtract oneDirtyChunkState.chunks))).2 := rfl
  rw [h2, flattenMeshMap_eq]
  simp only [oneDirtyChunkState, updateMeshes, chunkMeshes, wrapExtract, wrapMesh,
    List.map_cons, List.map_nil, List.flatMap_cons, List.flatMap_nil]
  decide

/-- A second `UpdateMeshes` pass with no intervening integration is the
identity: the first pass left every chunk clean. -/
lemma updateMeshes_idem (extract : List ((ℤ × ℤ × ℤ) × Voxel) → Mesh)
    (cs : ChunkStore) :
    updateMeshes extract (updateMeshes extract cs) = updateMeshes extract cs := by
  unfold updateMeshes
  rw [List.map_map]
  apply List.map_congr_left
  intro p _
  by_cases h : p.2.dirty <;> simp [Function.comp, h]

/-- C4: with no intervening integration, running mesh extraction and
flattening twice in a row produces bit-identical vertex and index
buffers — after the first pass no chunk is dirty, so the second pass is
the identity on every chunk. -/
theorem updateVertices_idempotent (extract : List ((ℤ × ℤ × ℤ) × Voxel) → Mesh)
    (s : ChiselMesh) :
    (updateVertices extract (updateVertices extract s)).glVertices =
      (updateVertices extract s).glVertices
  ∧ (updateVertices extract (updateVertices extract s)).glIndices =
      (updateVertices extract s).glIndices := by
  have hch : (updateVertices extract s).chunks = updateMeshes extract s.chunks := rfl
  constructor
  · show (flattenMeshMap (chunkMeshes
        (updateMeshes extract (updateVertices extract s).chunks))).1 =
      (flattenMeshMap (chunkMeshes (updateMeshes extract s.chunks))).1
    rw [hch, updateMeshes_idem]
  · show (flattenMeshMap (chunkMeshes
        (updateMeshes extract (updateVertices extract s).chunks))).2 =
      (flattenMeshMap (chunkMeshes (updateMeshes extract s.chunks))).2
    rw [hch, updateMeshes_idem]

/-- C10: the index-buffer entries emitted by the flattening loop are
16-bit unsigned stores — each entry equals (3i + k) mod 2 ^ 16 and is
below 2 ^ 16 — and for any chunk mesh containing an index i ≥ 21845 the
expanded entry 3i + 1 wraps (its stored value is strictly below the
unreduced one) while still being emitted, with no error raised. -/
theorem glushort_index_wrap :
    (∀ mm : List ((ℤ × ℤ × ℤ) × Mesh),
       (flattenMeshMap mm).2 = mm.flatMap (fun p =>
         p.2.indices.flatMap (fun index =>
           [index * 3 % 65536, (index * 3 + 1) % 65536, (index * 3 + 2) % 65536])))
  ∧ (∀ (mm : List ((ℤ × ℤ × ℤ) × Mesh)) (j : ℕ),
       j ∈ (flattenMeshMap mm).2 → j < 65536)
  ∧ (∀ (cid : ℤ × ℤ × ℤ) (m : Mesh) (i : ℕ), i ∈ m.indices → 21845 ≤ i →
       (i * 3 + 1) % 65536 ∈ (flattenMeshMap [(cid, m)]).2
       ∧ (i * 3 + 1) % 65536 < i * 3 + 1) := by
  have hsnd : ∀ mm : List ((ℤ × ℤ × ℤ) × Mesh),
      (flattenMeshMap mm).2 = mm.flatMap (fun p =>
        p.2.indices.flatMap (fun index =>
          [index * 3 % 65536, (index * 3 + 1) % 65536, (index * 3 + 2) % 65536])) := by
    intro mm
    rw [flattenMeshMap_eq]
  refine ⟨hsnd, ?_, ?_⟩
  · intro mm j hj
    rw [hsnd] at hj
    rw [List.mem_flatMap] at hj
    obtain ⟨p, _, hj⟩ := hj
    rw [List.mem_flatMap] at hj
    obtain ⟨i, _, hj⟩ := hj
    simp only [List.mem_cons, List.not_mem_nil, or_false] at hj
    rcases hj with rfl | rfl | rfl
    · exact Nat.mod_lt _ (by norm_num)
    · exact Nat.mod_lt _ (by norm_num)
    · exact Nat.mod_lt _ (by norm_num)
  · intro cid m i him hge
    constructor
    · rw [hsnd]
      refine List.mem_flatMap.mpr ⟨(cid, m), by simp, ?_⟩
      exact List.mem_flatMap.mpr ⟨i, him, by simp⟩
    · omega

/-- Witness for C10 at the concrete index 21845: the stored entry for
3i + 1 is 0, not 65536. -/
theorem glushort_index_wrap_witness :
    (21845 * 3 + 1) % 65536 ∈ (flattenMeshMap [((0, 0, 0), ⟨[], [21845]⟩)]).2
  ∧ (21845 * 3 + 1) % 65536 < 21845 * 3 + 1 :=
  glushort_index_wrap.2.2 (0, 0, 0) ⟨[], [21845]⟩ 21845 (by decide) (by decide)

/-- C3 (amended): `addPoints` performs no input validation — a buffer
whose length is not a multiple of 3 is not rejected; the call behaves
exactly as on the buffer truncated to the largest multiple of 3 (the
trailing floats are silently ignored) and mutates state as usual. -/
theorem addPoints_ignores_trailing_floats (s : ChiselMesh) (v : List ℚ)
    (T : Mat4) :
    addPoints s v T = addPoints s (v.take (v.length / 3 * 3)) T := by
  have hlen : (v.take (v.length / 3 * 3)).length = v.length / 3 * 3 := by
    rw [List.length_take]
    have := Nat.div_mul_le_self v.length 3
    omega
  have hfill : fillPointCloud (v.take (v.length / 3 * 3)) = fillPointCloud v := by
    rw [fillPointCloud_eq, fillPointCloud_eq, hlen]
    have hdiv : v.length / 3 * 3 / 3 = v.length / 3 := by omega
    rw [hdiv]
    apply List.map_congr_left
    intro i hi
    rw [List.mem_range] at hi
    have hx : ∀ k, k < v.length / 3 * 3 →
        (v.take (v.length / 3 * 3)).getD k 0 = v.getD k 0 := by
      intro k hk
      rw [List.getD_eq_getElem?_getD, List.getD_eq_getElem?_getD,
        List.getElem?_take_of_lt hk]
    rw [hx (i * 3) (by omega), hx (i * 3 + 1) (by omega), hx (i * 3 + 2) (by omega)]
  simp only [addPoints]
  rw [hfill]

/-- Counterexample to C3 as stated: the four-float input is malformed
(length not a multiple of 3), yet the call is not rejected — it mutates
the point-cloud buffer. -/
theorem addPoints_no_rejection_cex :
    ([1, 2, 3, 4] : List ℚ).length % 3 ≠ 0
  ∧ (addPoints initChiselMesh [1, 2, 3, 4] idMat).lastPointCloud ≠
      initChiselMesh.lastPointCloud := by
  decide

/-- The squared distance is non-negative. -/
lemma distSq_nonneg (a b : Vec3) : 0 ≤ distSq a b :=
  add_nonneg (add_nonneg (mul_self_nonneg _) (mul_self_nonneg _))
    (mul_self_nonneg _)

/-- Every ray sample's squared signed distance is within the truncation
band 8 * 8: the sample parameter j/m lies in [0, 1], so the squared
signed distance is at most the squared range. -/
lemma band_bound (D : ℚ) (hD0 : 0 ≤ D) (hD64 : D ≤ 64) (m j : ℕ)
    (hj : j ≤ m) :
    (1 - (j : ℚ) / (m : ℚ)) * (1 - (j : ℚ) / (m : ℚ)) * D ≤ 8 * 8 := by
  have ht0 : 0 ≤ (j : ℚ) / (m : ℚ) :=
    div_nonneg (Nat.cast_nonneg j) (Nat.cast_nonneg m)
  have ht1 : (j : ℚ) / (m : ℚ) ≤ 1 := by
    rcases Nat.eq_zero_or_pos m with hm | hm
    · subst hm
      have hj0 : j = 0 := Nat.le_zero.mp hj
      subst hj0
      norm_num
    · rw [div_le_one (by exact_mod_cast hm)]
      exact_mod_cast hj
  have h1 : (1 - (j : ℚ) / (m : ℚ)) * (1 - (j : ℚ) / (m : ℚ)) ≤ 1 := by
    nlinarith
  calc (1 - (j : ℚ) / (m : ℚ)) * (1 - (j : ℚ) / (m : ℚ)) * D
      ≤ 1 * D := mul_le_mul_of_nonneg_right h1 hD0
    _ = D := one_mul D
    _ ≤ 8 * 8 := by linarith

/-- The total confidence weight held by a chunk's voxel list. -/
def voxelWeightSum (l : List ((ℤ × ℤ × ℤ) × Voxel)) : ℚ :=
  (l.map (fun v => v.2.weight)).sum

/-- The total confidence weight held by a chunk store. -/
def storeWeightSum (st : ChunkStore) : ℚ :=
  (st.map (fun c => voxelWeightSum c.2.voxels)).sum

/-- Updating one voxel with a weight-increasing function raises the
chunk's weight sum by exactly that increment (the inserted default
voxel carries weight 0). -/
lemma voxelWeightSum_updateAssocD (l : List ((ℤ × ℤ × ℤ) × Voxel))
    (k : ℤ × ℤ × ℤ) (f : Voxel → Voxel) (c : ℚ)
    (hf : ∀ v, (f v).weight = v.weight + c) :
    voxelWeightSum (updateAssocD l k ⟨0, 0⟩ f) = voxelWeightSum l + c := by
  induction l with
  | nil =>
      simp only [updateAssocD, voxelWeightSum, List.map_cons, List.map_nil,
        List.sum_cons, List.sum_nil]
      rw [hf ⟨0, 0⟩]
      norm_num
  | cons hd tl ih =>
      obtain ⟨a, b⟩ := hd
      simp only [updateAssocD]
      by_cases hak : a = k
      · rw [if_pos hak]
        simp only [voxelWeightSum, List.map_cons, List.sum_cons]
        rw [hf b]
        ring
      · rw [if_neg hak]
        simp only [voxelWeightSum, List.map_cons, List.sum_cons] at ih ⊢
        rw [ih]
        ring

/-- Touching one voxel with a weight-increasing function raises the
store's total weight by exactly that increment (a lazily created chunk
starts empty). -/
lemma storeWeightSum_touchVoxel (chunkSize : ℕ) (st : ChunkStore)
    (vid : ℤ × ℤ × ℤ) (f : Voxel → Voxel) (c : ℚ)
    (hf : ∀ v, (f v).weight = v.weight + c) :
    storeWeightSum (touchVoxel chunkSize st vid f) = storeWeightSum st + c := by
  unfold touchVoxel
  induction st with
  | nil =>
      simp only [updateAssocD, storeWeightSum, List.map_cons, List.map_nil,
        List.sum_cons, List.sum_nil]
      simp [voxelWeightSum, hf ⟨0, 0⟩]
  | cons hd tl ih =>
      obtain ⟨a, ch⟩ := hd
      simp only [updateAssocD]
      by_cases hak : a = chunkIdOf chunkSize vid
      · rw [if_pos hak]
        simp only [storeWeightSum, List.map_cons, List.sum_cons]
        rw [voxelWeightSum_updateAssocD _ _ _ c hf]
        ring
      · rw [if_neg hak]
        simp only [storeWeightSum, List.map_cons, List.sum_cons] at ih ⊢
        rw [ih]
        ring

/-- A sample within the truncation band merges by running weighted
average, raising the store's total weight by the Weighter's constant. -/
lemma storeWeightSum_voxelUpdate (ig : Integrator) (chunkSize : ℕ)
    (st : ChunkStore) (q : (ℤ × ℤ × ℤ) × ℚ × ℚ)
    (hband : q.2.1 ≤ ig.truncationDistScale * ig.truncationDistScale) :
    storeWeightSum (voxelUpdate ig chunkSize st q) =
      storeWeightSum st + ig.weighting := by
  unfold voxelUpdate
  rw [if_pos hband]
  exact storeWeightSum_touchVoxel chunkSize st q.1 _ ig.weighting (fun v => rfl)

/-- Folding in-band samples raises the store's total weight by the
sample count times the Weighter's constant. -/
lemma storeWeightSum_foldl (ig : Integrator) (chunkSize : ℕ)
    (l : List ((ℤ × ℤ × ℤ) × ℚ × ℚ)) (st : ChunkStore)
    (hl : ∀ q ∈ l, q.2.1 ≤ ig.truncationDistScale * ig.truncationDistScale) :
    storeWeightSum (l.foldl (voxelUpdate ig chunkSize) st) =
      storeWeightSum st + (l.length : ℚ) * ig.weighting := by
  induction l generalizing st with
  | nil => simp
  | cons q tl ih =>
      simp only [List.foldl_cons, List.length_cons]
      rw [ih _ (fun r hr => hl r (List.mem_cons_of_mem _ hr)),
        storeWeightSum_voxelUpdate ig chunkSize st q (hl q (List.mem_cons_self _ _))]
      push_cast
      ring

/-- C5 (amended): a point whose range from the sensor origin exceeds the
configured far-clip distance (2.0) is skipped — it touches no voxel and
leaves the chunk store unchanged — while a point at strictly positive
range strictly below the far clip does affect voxels: it touches a
non-empty set of voxels, and under the configured integrator (truncation
half-width 8, so every in-range sample lies within the band, and
constant weight 1) integrating it strictly increases the store's total
voxel weight, changing every starting chunk store.  Range comparisons
are carried out on squares, which is equivalent for these non-negative
quantities. -/
theorem farClip_boundary (T : Mat4) (p : Vec3) :
    (initChiselMesh.config.farClipping * initChiselMesh.config.farClipping <
        distSq (translationOf T) (worldOf T p) →
      touchedVoxels T initChiselMesh.config.farClipping
          initChiselMesh.config.chunkResolution p = []
      ∧ ∀ (ig : Integrator) (chunkSize : ℕ) (st : ChunkStore),
          integratePointCloud ig [p] T initChiselMesh.config.rayTruncation
            initChiselMesh.config.farClipping chunkSize
            initChiselMesh.config.chunkResolution st = st)
  ∧ (0 < distSq (translationOf T) (worldOf T p) →
     distSq (translationOf T) (worldOf T p) <
        initChiselMesh.config.farClipping * initChiselMesh.config.farClipping →
      touchedVoxels T initChiselMesh.config.farClipping
          initChiselMesh.config.chunkResolution p ≠ []
      ∧ ∀ (chunkSize : ℕ) (st : ChunkStore),
          integratePointCloud (integratorOf initChiselMesh.config) [p] T
            initChiselMesh.config.rayTruncation initChiselMesh.config.farClipping
            chunkSize initChiselMesh.config.chunkResolution st ≠ st) := by
  constructor
  · intro h
    have hne : distSq (translationOf T) (worldOf T p) ≠ 0 := by
      intro h0
      rw [h0] at h
      have := mul_self_nonneg initChiselMesh.config.farClipping
      linarith
    have htd : touchedData T initChiselMesh.config.farClipping
        initChiselMesh.config.chunkResolution p = [] := by
      simp only [touchedData]
      rw [if_neg hne, if_pos h]
    constructor
    · unfold touchedVoxels
      rw [htd]
      rfl
    · intro ig chunkSize st
      simp only [integratePointCloud, List.foldl_cons, List.foldl_nil,
        integrateOnePoint]
      rw [htd]
      rfl
  · intro h0 hlt
    have hne : distSq (translationOf T) (worldOf T p) ≠ 0 := ne_of_gt h0
    have hnlt : ¬ (initChiselMesh.config.farClipping * initChiselMesh.config.farClipping <
        distSq (translationOf T) (worldOf T p)) := not_lt.mpr (le_of_lt hlt)
    have hD0 : 0 ≤ distSq (translationOf T) (worldOf T p) := distSq_nonneg _ _
    have hfc : initChiselMesh.config.farClipping = 2 := rfl
    rw [hfc] at hlt
    have hD64 : distSq (translationOf T) (worldOf T p) ≤ 64 := by linarith
    have hband : ∀ q ∈ touchedData T initChiselMesh.config.farClipping
        initChiselMesh.config.chunkResolution p,
        q.2.1 ≤ (integratorOf initChiselMesh.config).truncationDistScale *
          (integratorOf initChiselMesh.config).truncationDistScale := by
      intro q hq
      simp only [touchedData] at hq
      rw [if_neg hne, if_neg hnlt] at hq
      rw [List.mem_map] at hq
      obtain ⟨j, hj, rfl⟩ := hq
      rw [List.mem_range, Nat.lt_succ_iff] at hj
      have hτ : (integratorOf initChiselMesh.config).truncationDistScale = 8 := rfl
      rw [hτ]
      exact band_bound _ hD0 hD64 _ _ hj
    constructor
    · unfold touchedVoxels
      simp only [touchedData]
      rw [if_neg hne, if_neg hnlt]
      simp
    · intro chunkSize st hEq
      have hres : integratePointCloud (integratorOf initChiselMesh.config) [p] T
          initChiselMesh.config.rayTruncation initChiselMesh.config.farClipping
          chunkSize initChiselMesh.config.chunkResolution st =
          (touchedData T initChiselMesh.config.farClipping
            initChiselMesh.config.chunkResolution p).foldl
            (voxelUpdate (integratorOf initChiselMesh.config) chunkSize) st := rfl
      have hsum := storeWeightSum_foldl (integratorOf initChiselMesh.config)
        chunkSize
        (touchedData T initChiselMesh.config.farClipping
          initChiselMesh.config.chunkResolution p) st hband
      rw [← hres, hEq] at hsum
      have hw1 : (integratorOf initChiselMesh.config).weighting = 1 := rfl
      have hlen : (touchedData T initChiselMesh.config.farClipping
          initChiselMesh.config.chunkResolution p).length =
          raySampleCount (translationOf T) (worldOf T p)
            initChiselMesh.config.chunkResolution + 1 := by
        simp only [touchedData]
        rw [if_neg hne, if_neg hnlt]
        simp
      rw [hw1, hlen] at hsum
      have hpos : (0 : ℚ) < ((raySampleCount (translationOf T) (worldOf T p)
          initChiselMesh.config.chunkResolution + 1 : ℕ) : ℚ) := by
        exact_mod_cast Nat.succ_pos _
      linarith

/-- Counterexample to C5 as stated: the degenerate point at the sensor
origin has range 0, strictly below the far clip, yet (as the spec's own
zero-length-ray edge case requires) it touches no voxel. -/
theorem farClip_zero_range_cex :
    distSq (translationOf idMat) (worldOf idMat ⟨0, 0, 0⟩) = 0
  ∧ distSq (translationOf idMat) (worldOf idMat ⟨0, 0, 0⟩) <
      initChiselMesh.config.farClipping * initChiselMesh.config.farClipping
  ∧ touchedVoxels idMat initChiselMesh.config.farClipping
      initChiselMesh.config.chunkResolution ⟨0, 0, 0⟩ = [] := by
  have h0 : distSq (translationOf idMat) (worldOf idMat ⟨0, 0, 0⟩) = 0 := by
    norm_num [distSq, translationOf, worldOf, idMat]
  refine ⟨h0, ?_, ?_⟩
  · rw [h0]
    norm_num [initChiselMesh]
  · simp [touchedVoxels, touchedData, h0]

/-- The identity pose has zero translation. -/
lemma translationOf_idMat : translationOf idMat = ⟨0, 0, 0⟩ := rfl

/-- The identity pose maps every point to itself. -/
lemma worldOf_idMat (p : Vec3) : worldOf idMat p = p := by
  simp only [worldOf]
  rw [show idMat 0 0 = 1 from rfl, show idMat 0 1 = 0 from rfl,
    show idMat 0 2 = 0 from rfl, show idMat 0 3 = 0 from rfl,
    show idMat 1 0 = 0 from rfl, show idMat 1 1 = 1 from rfl,
    show idMat 1 2 = 0 from rfl, show idMat 1 3 = 0 from rfl,
    show idMat 2 0 = 0 from rfl, show idMat 2 1 = 0 from rfl,
    show idMat 2 2 = 1 from rfl, show idMat 2 3 = 0 from rfl]
  simp

/-- Witness for C5 at concrete points: range 3 > 2 is skipped, while
range 1 < 2 touches voxels and changes the (here empty) chunk store. -/
theorem farClip_boundary_witness :
    touchedVoxels idMat initChiselMesh.config.farClipping
        initChiselMesh.config.chunkResolution ⟨3, 0, 0⟩ = []
  ∧ touchedVoxels idMat initChiselMesh.config.farClipping
        initChiselMesh.config.chunkResolution ⟨1, 0, 0⟩ ≠ []
  ∧ integratePointCloud (integratorOf initChiselMesh.config) [⟨1, 0, 0⟩] idMat
      initChiselMesh.config.rayTruncation initChiselMesh.config.farClipping 16
      initChiselMesh.config.chunkResolution [] ≠ [] :=
  have hnear := (farClip_boundary idMat ⟨1, 0, 0⟩).2
    (by rw [translationOf_idMat, worldOf_idMat]
        norm_num [distSq, initChiselMesh])
    (by rw [translationOf_idMat, worldOf_idMat]
        norm_num [distSq, initChiselMesh])
  ⟨((farClip_boundary idMat ⟨3, 0, 0⟩).1
      (by rw [translationOf_idMat, worldOf_idMat]
          norm_num [distSq, initChiselMesh])).1,
   hnear.1, hnear.2 16 []⟩

/-- C6: the truncation-band merge is the running weighted average with
`newWeight = oldWeight + sampleWeight`; the Weighter contributes the
constant 1.0 of this configuration; and integrating the same clean
sample N ≥ 1 times into an unobserved voxel yields exactly the sample
distance with weight N × 1. -/
theorem mergeVoxel_weighted_average :
    (∀ (v : Voxel) (sd sw : ℚ),
       (mergeVoxel v sd sw).sdf = (v.sdf * v.weight + sd * sw) / (v.weight + sw)
       ∧ (mergeVoxel v sd sw).weight = v.weight + sw)
  ∧ (∀ r : ℚ, constantWeighter initChiselMesh.config.weighting r = 1)
  ∧ (∀ (sampleDistance d0 : ℚ) (N : ℕ), 1 ≤ N →
       integrateN sampleDistance N ⟨d0, 0⟩ = ⟨sampleDistance, (N : ℚ)⟩) := by
  refine ⟨fun v sd sw => ⟨rfl, rfl⟩, fun r => rfl, ?_⟩
  intro s d0 N hN
  induction N with
  | zero => exact absurd hN (by norm_num)
  | succ n ih =>
      rcases Nat.eq_zero_or_pos n with h0 | hpos
      · subst h0
        show mergeVoxel (integrateN s 0 ⟨d0, 0⟩) s 1 = _
        simp only [integrateN, mergeVoxel]
        norm_num
      · have ih2 := ih hpos
        show mergeVoxel (integrateN s n ⟨d0, 0⟩) s 1 = _
        rw [ih2]
        have hcast : ((n + 1 : ℕ) : ℚ) = (n : ℚ) + 1 := by push_cast; ring
        rw [hcast]
        have hne : ((n : ℚ) + 1) ≠ 0 := by positivity
        unfold mergeVoxel
        congr 1
        rw [div_eq_iff hne]
        ring

/-- Witness for C6: two integrations of the clean sample 5 into an
unobserved voxel give distance 5 and weight 2. -/
theorem mergeVoxel_weighted_average_witness :
    integrateN 5 2 ⟨3, 0⟩ = ⟨5, ((2 : ℕ) : ℚ)⟩ :=
  mergeVoxel_weighted_average.2.2 5 3 2 (by norm_num)

end TangoAR
